import Mathlib

/-!
Shallow embedding of the firetap collaboration engine, for checking the
natural-language specification against the source.

The embedding covers:
* `src/lib/firebase/persistence.ts` — snapshot record construction
  (`persistDocument`), base64 and hex utilities, and the debounced /
  periodic save loop (`startPeriodicPersistence`);
* `src/lib/core/peer-manager.ts` — discovery initiation, the data-channel
  message pipeline (chunking / reassembly), message-buffer tracking,
  memory cleanup and the peer-count accessors;
* `src/lib/utils/compression.ts` — the gzip compression codec;
* the adapter's update pipeline (origin-gated broadcast).

JS `Uint8Array` values are modelled as `List Nat` of bytes (< 256 where it
matters), JS strings as Lean `String` or `List Char`, and JS `Map` objects
as association lists with unique keys in insertion order.
-/

namespace Firetap

/-! ## Byte-array utilities from `persistence.ts` -/

/-- `arraysAreEqual` from `persistence.ts`: length check followed by an
elementwise loop over the two arrays. -/
def arraysAreEqual (a b : List Nat) : Bool :=
  a.length == b.length && (List.zip a b).all (fun p => p.1 == p.2)

/-! ## Base64 (model of the platform `btoa` / `atob` primitives)

`uint8ArrayToBase64` in `persistence.ts` turns the byte array into a binary
string with `String.fromCharCode` (the 8 KiB chunking there only works around
a call-stack limit and concatenates to the same binary string) and then calls
the platform primitive `btoa`; `base64ToUint8Array` calls `atob` and reads the
char codes back.  We model the composite byte-level transformations: standard
RFC 4648 base64 with `=` padding. -/

/-- The base64 alphabet used by `btoa`. -/
def b64Alphabet : List Char :=
  "ABCDEFGHIJKLMNOPQRSTUVWXYZabcdefghijklmnopqrstuvwxyz0123456789+/".toList

/-- Character for a six-bit group. -/
def b64Char (n : Nat) : Char := b64Alphabet.getD n '='

/-- Index of a base64 character in the alphabet (used when decoding). -/
def b64Index (c : Char) : Nat := b64Alphabet.indexOf c

/-- `uint8ArrayToBase64` from `persistence.ts` (bytes → base64 characters):
groups of three bytes become four alphabet characters; a trailing group of
two or one bytes is padded with `=`. -/
def uint8ArrayToBase64 : List Nat → List Char
  | a :: b :: c :: rest =>
      b64Char (a / 4) :: b64Char ((a % 4) * 16 + b / 16) ::
      b64Char ((b % 16) * 4 + c / 64) :: b64Char (c % 64) :: uint8ArrayToBase64 rest
  | [a, b] => [b64Char (a / 4), b64Char ((a % 4) * 16 + b / 16), b64Char ((b % 16) * 4), '=']
  | [a] => [b64Char (a / 4), b64Char ((a % 4) * 16), '=', '=']
  | [] => []

/-- `base64ToUint8Array` from `persistence.ts` (base64 characters → bytes). -/
def base64ToUint8Array : List Char → List Nat
  | c1 :: c2 :: c3 :: c4 :: rest =>
      let i1 := b64Index c1
      let i2 := b64Index c2
      if c3 = '=' then [i1 * 4 + i2 / 16]
      else
        let i3 := b64Index c3
        if c4 = '=' then [i1 * 4 + i2 / 16, (i2 % 16) * 16 + i3 / 4]
        else
          (i1 * 4 + i2 / 16) :: ((i2 % 16) * 16 + i3 / 4) ::
          ((i3 % 4) * 64 + b64Index c4) :: base64ToUint8Array rest
  | _ => []

/-! ## Checksum rendering (`calculateChecksum` in `persistence.ts`)

`calculateChecksum` feeds the raw bytes to the platform primitive
`crypto.subtle.digest('SHA-256', …)` and renders the digest bytes with
`b.toString(16).padStart(2, '0')` joined together.  The digest primitive is
external to the repository, so the theorems below quantify over an arbitrary
`digest : List Nat → List Nat`; only the rendering and the choice of input
bytes are repository code. -/

/-- Hexadecimal digit characters as produced by JS `Number.toString(16)`
(lowercase). -/
def hexChar (n : Nat) : Char := "0123456789abcdef".toList.getD n 'x'

/-- `b.toString(16).padStart(2, '0')` for a byte `b < 256`: exactly two
lowercase hex digits. -/
def byteToHex (b : Nat) : List Char := [hexChar (b / 16), hexChar (b % 16)]

/-- `calculateChecksum` from `persistence.ts`, with the SHA-256 primitive
abstracted as `digest`. -/
def calculateChecksum (digest : List Nat → List Nat) (data : List Nat) : List Char :=
  (digest data).flatMap byteToHex

/-! ## Snapshot records (`persistDocument` in `persistence.ts`) -/

/-- The `DocumentSnapshot` record written to `snapshots/latest`.
`updatedAt` is the `serverTimestamp()` sentinel, modelled as the resolved
server time. -/
structure DocumentSnapshot where
  update : List Char
  stateVector : List Char
  updatedAt : Nat
  version : Nat
  checksum : List Char

/-- JS `version || Date.now()` on `version : number | undefined`: the
fallback fires when `version` is `undefined` — and also when it is `0`,
because `0` is falsy. -/
def jsNumberOr (version : Option Nat) (fallback : Nat) : Nat :=
  match version with
  | some n => if n = 0 then fallback else n
  | none => fallback

/-- `persistDocument` from `persistence.ts`: the snapshot record it writes to
`snapshots/latest`, given the document's encoded full state `update` and
state vector, the wall clock `now` (`Date.now()` / resolved server time), and
the optional `version` argument. -/
def persistDocument (digest : List Nat → List Nat) (now : Nat) (version : Option Nat)
    (update stateVector : List Nat) : DocumentSnapshot :=
  { update := uint8ArrayToBase64 update
    stateVector := uint8ArrayToBase64 stateVector
    updatedAt := now
    version := jsNumberOr version now
    checksum := calculateChecksum digest update }

/-- The version argument `startPeriodicPersistence` passes on its k-th
successful write (`persistenceCount++`, starting at 0). -/
def saveLoopVersionArg (k : Nat) : Option Nat := some k

/-! ## The save loop (`startPeriodicPersistence` in `persistence.ts`) -/

/-- Mutable state of the save loop: the dirty flag and the last persisted
state vector (plus the write counter). -/
structure PersistLoopState where
  hasChanges : Bool
  lastPersistedStateVector : Option (List Nat)
  persistenceCount : Nat

/-- The document `'update'` handler of the save loop: mark dirty (and
re-arm the debounce timer). -/
def persistenceUpdateHandler (st : PersistLoopState) : PersistLoopState :=
  { st with hasChanges := true }

/-- One firing of the debounced flush, or of the periodic backstop (both run
the same body in `startPeriodicPersistence`): if the dirty flag is set and
the current state vector differs by bytes from the last persisted one
(`!lastPersistedStateVector || !arraysAreEqual(...)`), write one snapshot and
record the vector; otherwise write nothing.  Returns the new state and the
number of substrate writes performed. -/
def persistenceFlush (st : PersistLoopState) (currentStateVector : List Nat) :
    PersistLoopState × Nat :=
  if st.hasChanges then
    let stateVectorChanged :=
      match st.lastPersistedStateVector with
      | none => true
      | some sv => !(arraysAreEqual currentStateVector sv)
    if stateVectorChanged then
      ({ hasChanges := false
         lastPersistedStateVector := some currentStateVector
         persistenceCount := st.persistenceCount + 1 }, 1)
    else (st, 0)
  else (st, 0)

/-! ## Compression codec (`src/lib/utils/compression.ts`)

The streaming gzip primitive (`CompressionStream` / `DecompressionStream`)
is a platform capability; the theorems quantify over arbitrary `gzip` /
`gunzip` functions.  `USE_NATIVE_COMPRESSION` is
`typeof CompressionStream !== 'undefined'`, a platform fact, passed as the
`useNativeCompression` flag. -/

/-- `COMPRESSION_THRESHOLD` from `constants.ts`. -/
def COMPRESSION_THRESHOLD : Nat := 100

/-- Result of `compressData`. -/
structure CompressResult where
  compressed : List Nat
  isCompressed : Bool

/-- `compressData` from `compression.ts` (the `catch` branch, which also
returns the input uncompressed, is not reachable in this pure model). -/
def compressData (gzip : List Nat → List Nat) (useNativeCompression : Bool)
    (data : List Nat) : CompressResult :=
  if !useNativeCompression || data.length < COMPRESSION_THRESHOLD then
    { compressed := data, isCompressed := false }
  else
    let compressed := gzip data
    if compressed.length < data.length then { compressed := compressed, isCompressed := true }
    else { compressed := data, isCompressed := false }

/-- `decompressData` from `compression.ts`. -/
def decompressData (gunzip : List Nat → List Nat) (useNativeCompression : Bool)
    (data : List Nat) : List Nat :=
  if !useNativeCompression then data
  else gunzip data

/-! ## Peer discovery (`initialize` in `peer-manager.ts`) -/

/-- `PEER_PRESENCE_TIMEOUT_MS` from `constants.ts`. -/
def PEER_PRESENCE_TIMEOUT_MS : Nat := 600000

/-- The decision taken by the `onChildAdded` discovery handler in
`initialize`: skip our own peer entry, skip if a connection already exists,
require a truthy and fresh `lastSeen`, and initiate only when
`this.peerId < otherPeerId` (JS lexicographic string comparison).  Times are
`Int` so that the JS subtraction `now - lastSeen` is modelled exactly. -/
def shouldInitiateOnDiscovery (selfId otherId : String) (lastSeen now : Int)
    (connectionExists : Bool) : Bool :=
  if otherId = selfId then false
  else if connectionExists then false
  else if lastSeen != 0 && now - lastSeen < (PEER_PRESENCE_TIMEOUT_MS : Int) then
    decide (selfId < otherId)
  else false

/-! ## Message framing, chunking and reassembly (`peer-manager.ts`)

`MAX_CHUNK_SIZE` and `CHUNK_HEADER_SIZE` are imported by `peer-manager.ts`
from `utils/constants` but their definitions are not part of the corpus; the
derived byte budget
`maxDataSize = MAX_CHUNK_SIZE − CHUNK_HEADER_SIZE − testMessage.length` is
therefore a parameter of the embedding. -/

/-- A `sync-chunk` wire envelope. -/
structure ChunkEnvelope where
  messageId : String
  chunk : Nat
  totalChunks : Nat
  update : List Nat

/-- The wire envelopes sent over a data channel (awareness envelopes are not
needed for the claims about the sync path). -/
inductive WireMessage where
  | sync (update : List Nat)
  | syncChunk (env : ChunkEnvelope)

/-- `broadcastUpdate` from `peer-manager.ts`: the sequence of envelopes
handed to `sendToAllPeers` for one outbound update.  `Math.ceil(a / b)` on
positive integers is `(a + b − 1) / b`. -/
def broadcastUpdate (maxDataSize : Nat) (selfId : String) (now : Nat)
    (update : List Nat) : List WireMessage :=
  if update.length = 0 || update.length < 3 then []
  else
    let totalSize := update.length
    if totalSize ≤ maxDataSize then [WireMessage.sync update]
    else
      let chunks := (totalSize + maxDataSize - 1) / maxDataSize
      let messageId := selfId ++ "-" ++ toString now
      (List.range chunks).map (fun i =>
        WireMessage.syncChunk
          { messageId := messageId
            chunk := i
            totalChunks := chunks
            update := (update.drop (i * maxDataSize)).take maxDataSize })

/-- The envelope emitted by the chunk loop of `broadcastUpdate` for chunk
index `i` of payload `l`: the shared `messageId` is `"{selfId}-{now}"`, the
chunk count is `Math.ceil(l.length / B)`, and the chunk bytes are
`slice(i*B, min((i+1)*B, l.length))`. -/
def syncChunkEnvelope (B : Nat) (selfId : String) (now : Nat) (l : List Nat)
    (i : Nat) : ChunkEnvelope :=
  { messageId := selfId ++ "-" ++ toString now
    chunk := i
    totalChunks := (l.length + B - 1) / B
    update := (l.drop (i * B)).take B }

/-- Receiver-side state for one peer: the chunk reassembly buffer
(`chunkBuffers.get(peerId)`, a JS `Map` keyed by chunk index, in insertion
order) and the list of updates applied to the document so far. -/
structure ReassemblyState where
  buffer : List (Nat × List Nat)
  applied : List (List Nat)

/-- `Map.get` on the reassembly buffer. -/
def bufferGet : List (Nat × List Nat) → Nat → Option (List Nat)
  | [], _ => none
  | (j, d) :: rest, i => if i = j then some d else bufferGet rest i

/-- `handleChunkedMessage` from `peer-manager.ts`: insert the chunk if its
index is not yet buffered; when the buffer holds `totalChunks` entries,
concatenate in chunk-index order (skipping holes, `if (chunkData)`), apply
the result to the document, and clear the buffer. -/
def handleChunkedMessage (st : ReassemblyState) (env : ChunkEnvelope) : ReassemblyState :=
  let buffer :=
    if (bufferGet st.buffer env.chunk).isSome then st.buffer
    else st.buffer ++ [(env.chunk, env.update)]
  if buffer.length = env.totalChunks then
    let completeUpdate :=
      (List.range env.totalChunks).flatMap (fun i => (bufferGet buffer i).getD [])
    { buffer := [], applied := st.applied ++ [completeUpdate] }
  else
    { st with buffer := buffer }

/-- The `dataChannel.onmessage` dispatch in `setupDataChannel`, restricted to
the sync path: a `sync` envelope is applied directly
(`Y.applyUpdate(this.ydoc, updateArray, this)`), a `sync-chunk` envelope goes
through reassembly. -/
def handleDataChannelMessage (st : ReassemblyState) : WireMessage → ReassemblyState
  | WireMessage.sync update => { st with applied := st.applied ++ [update] }
  | WireMessage.syncChunk env => handleChunkedMessage st env

/-- Fresh receiver state (no chunks buffered, nothing applied). -/
def emptyReassembly : ReassemblyState := { buffer := [], applied := [] }

/-- Deliver a sequence of wire messages to one peer's receiver. -/
def processMessages (st : ReassemblyState) (msgs : List WireMessage) : ReassemblyState :=
  msgs.foldl handleDataChannelMessage st

/-! ## Update pipeline origin gating (adapter, `src/lib/README.md`) -/

/-- Values that can appear as the origin tag of a Yjs document update.
`peerManager` stands for the adapter's own `SimplePeerManager` instance
(`this` in `Y.applyUpdate(this.ydoc, updateArray, this)`); `other` covers
every other origin (local editor bindings, `null`, …). -/
inductive UpdateOrigin where
  | peerManager
  | other (tag : Nat)
deriving DecidableEq

/-- The adapter's `ydoc.on("update", …)` handler: an update is queued for
broadcast (batched, then handed to `broadcastUpdate`) only when
`origin !== peerManager`. -/
def docUpdateHandler (origin : UpdateOrigin) (pendingUpdates : List (List Nat))
    (update : List Nat) : List (List Nat) :=
  if origin ≠ UpdateOrigin.peerManager then pendingUpdates ++ [update]
  else pendingUpdates

/-- The origin tag the peer manager passes when applying a remote sync
update: the peer manager itself. -/
def remoteApplyOrigin : UpdateOrigin := UpdateOrigin.peerManager

/-! ## Connection-state bookkeeping (`peer-manager.ts`) -/

/-- `RTCPeerConnection.connectionState` values. -/
inductive RTCConnectionState where
  | new
  | connecting
  | connected
  | disconnected
  | failed
  | closed
deriving DecidableEq

/-- `getPeerCount`: peers whose connection state is `"connected"`. -/
def getPeerCount (peers : List (String × RTCConnectionState)) : Nat :=
  (peers.filter (fun p => p.2 = RTCConnectionState.connected)).length

/-- The `connectionCount` field of `getMemoryStats()`: `this.peers.size`,
counting every tracked connection regardless of state. -/
def getMemoryStatsConnectionCount (peers : List (String × RTCConnectionState)) : Nat :=
  peers.length

/-! ## Awareness cleanup on the periodic ticks -/

/-- `MAX_AWARENESS_STATES` from `constants.ts`. -/
def MAX_AWARENESS_STATES : Nat := 50

/-- State visible to `performMemoryCleanup` in `peer-manager.ts`:
the keys of `awareness.getStates()` (numeric Yjs client ids), the tracked
peer connections (string peer ids), our own peer id and our own
`ydoc.clientID`. -/
structure PeerManagerMemState where
  awarenessClients : List Nat
  peers : List (String × RTCConnectionState)
  selfPeerId : String
  selfClientID : Nat

/-- The `connectedPeerIds` set built by `performMemoryCleanup`: string ids of
peers in `"connected"` state, plus `this.peerId`. -/
def connectedPeerIds (st : PeerManagerMemState) : List String :=
  ((st.peers.filter (fun p => p.2 = RTCConnectionState.connected)).map Prod.fst)
    ++ [st.selfPeerId]

/-- The retention test of `performMemoryCleanup`: an awareness entry is kept
iff `connectedPeerIds.has(String(clientId))` or
`clientId === this.ydoc.clientID` (the removal condition is its negation). -/
def awarenessKeep (st : PeerManagerMemState) (clientId : Nat) : Bool :=
  (connectedPeerIds st).contains (toString clientId) || clientId == st.selfClientID

/-- The awareness part of `performMemoryCleanup` in `peer-manager.ts`: when
the awareness map holds more than `MAX_AWARENESS_STATES` entries, remove
exactly the entries failing `awarenessKeep`; otherwise leave the map alone.
Returns the remaining client ids. -/
def performMemoryCleanupAwareness (st : PeerManagerMemState) : List Nat :=
  if st.awarenessClients.length > MAX_AWARENESS_STATES then
    st.awarenessClients.filter (awarenessKeep st)
  else st.awarenessClients

/-- The awareness part of the adapter's memory-monitor tick
(`src/lib/README.md`, step 10): when the awareness map holds more than
`maxAwarenessStates` entries, every entry other than `ydoc.clientID` is
collected into `clientsToRemove` and removed — connected peers' entries
included. -/
def adapterMemoryTickAwareness (awarenessClients : List Nat) (selfClientID : Nat)
    (maxAwarenessStates : Nat) : List Nat :=
  if awarenessClients.length > maxAwarenessStates then
    awarenessClients.filter (fun cid => cid == selfClientID)
  else awarenessClients

/-! ## Message-buffer tracking (`trackMessage` in `peer-manager.ts`) -/

/-- `MESSAGE_BUFFER_RETENTION_MS` from `constants.ts`. -/
def MESSAGE_BUFFER_RETENTION_MS : Nat := 3600000

/-- `MAX_MESSAGE_BUFFER_SIZE` from `constants.ts` (`this.maxBufferSize`). -/
def MAX_MESSAGE_BUFFER_SIZE : Nat := 1000

/-- The message buffer and the running `memoryStats.messageBuffer` byte
counter.  The counter is `Int` because the source updates it with ordinary
JS arithmetic. -/
structure MessageTrackerState where
  messageBuffer : List (Nat × Nat)
  messageBufferBytes : Int

/-- Sum of the `size` fields of the buffered entries. -/
def sumSizes (l : List (Nat × Nat)) : Int :=
  (l.map (fun e => (e.2 : Int))).sum

/-- The retention `while` loop of `trackMessage`: shift entries whose
timestamp is below the cutoff off the front, subtracting their sizes from
the counter. -/
def dropExpired : List (Nat × Nat) → Int → Nat → List (Nat × Nat) × Int
  | [], counter, _ => ([], counter)
  | (t, s) :: rest, counter, cutoff =>
    if t < cutoff then dropExpired rest (counter - s) cutoff
    else ((t, s) :: rest, counter)

/-- `trackMessage` from `peer-manager.ts`: push the new entry and grow the
counter; run the one-hour retention trim; then, if the buffer exceeds
`maxBufferSize`, splice the excess off the front and subtract its sizes.
(`now - MESSAGE_BUFFER_RETENTION_MS` is truncated `Nat` subtraction here; in
JS the cutoff can go negative, but no timestamp is below a negative cutoff,
so both give the same trim.) -/
def trackMessage (st : MessageTrackerState) (now size : Nat) : MessageTrackerState :=
  let buf1 := st.messageBuffer ++ [(now, size)]
  let c1 := st.messageBufferBytes + size
  let cutoff := now - MESSAGE_BUFFER_RETENTION_MS
  let trimmed := dropExpired buf1 c1 cutoff
  let buf2 := trimmed.1
  let c2 := trimmed.2
  if buf2.length > MAX_MESSAGE_BUFFER_SIZE then
    let excess := buf2.take (buf2.length - MAX_MESSAGE_BUFFER_SIZE)
    { messageBuffer := buf2.drop (buf2.length - MAX_MESSAGE_BUFFER_SIZE)
      messageBufferBytes := c2 - sumSizes excess }
  else
    { messageBuffer := buf2, messageBufferBytes := c2 }

/-! ## Concrete scenario for the awareness-cleanup claim -/

/-- A concrete `performMemoryCleanup` scenario: 51 awareness entries (client
ids 0–50), one tracked peer `"p1"` in `"connected"` state, own peer id
`"self"`, own `ydoc.clientID` 0. -/
def c7CexState : PeerManagerMemState :=
  { awarenessClients := List.range 51
    peers := [("p1", RTCConnectionState.connected)]
    selfPeerId := "self"
    selfClientID := 0 }

/-- In the scenario of `c7CexState`, the Yjs client id of the connected peer
`"p1"`: Yjs client ids are random numbers, unrelated to the adapter-level
peer-id strings, so `"p1"`'s awareness entry sits under a numeric key. -/
def c7CexClientId : Nat := 7

/-! ## Helper theorems -/

theorem arraysAreEqual_iff (a b : List Nat) : arraysAreEqual a b = true ↔ a = b := by
  induction a generalizing b with
  | nil => cases b <;> simp [arraysAreEqual]
  | cons x xs ih =>
    cases b with
    | nil => simp [arraysAreEqual]
    | cons y ys =>
      have h := ih ys
      simp only [arraysAreEqual, List.length_cons, List.zip_cons_cons, List.all_cons,
        Bool.and_eq_true, beq_iff_eq, List.cons.injEq] at h ⊢
      constructor
      · rintro ⟨hlen, hxy, hall⟩
        have : xs = ys := h.mp ⟨by omega, hall⟩
        simp [hxy, this]
      · rintro ⟨hxy, hys⟩
        have := h.mpr hys
        exact ⟨by omega, hxy, this.2⟩


theorem b64Index_b64Char : ∀ n, n < 64 → b64Index (b64Char n) = n := by decide

theorem b64Char_ne_pad : ∀ n, n < 64 → b64Char n ≠ '=' := by decide

/-- Decoding inverts encoding on genuine byte lists. -/
theorem base64_roundtrip :
    ∀ l : List Nat, (∀ b ∈ l, b < 256) → base64ToUint8Array (uint8ArrayToBase64 l) = l := by
  intro l
  induction l using uint8ArrayToBase64.induct with
  | case1 a b c rest ih =>
    intro hb
    have ha' : a < 256 := hb a (by simp)
    have hb' : b < 256 := hb b (by simp)
    have hc' : c < 256 := hb c (by simp)
    have h1 : a / 4 < 64 := by omega
    have h2 : (a % 4) * 16 + b / 16 < 64 := by omega
    have h3 : (b % 16) * 4 + c / 64 < 64 := by omega
    have h4 : c % 64 < 64 := by omega
    simp only [uint8ArrayToBase64, base64ToUint8Array,
      b64Index_b64Char _ h1, b64Index_b64Char _ h2, b64Index_b64Char _ h3,
      b64Index_b64Char _ h4, if_neg (b64Char_ne_pad _ h3), if_neg (b64Char_ne_pad _ h4)]
    rw [ih (fun x hx => hb x (by simp [hx]))]
    simp only [List.cons.injEq, eq_self_iff_true, and_true]
    omega
  | case2 a b =>
    intro hb
    have ha' : a < 256 := hb a (by simp)
    have hb' : b < 256 := hb b (by simp)
    have h1 : a / 4 < 64 := by omega
    have h2 : (a % 4) * 16 + b / 16 < 64 := by omega
    have h3 : (b % 16) * 4 < 64 := by omega
    simp only [uint8ArrayToBase64, base64ToUint8Array,
      b64Index_b64Char _ h1, b64Index_b64Char _ h2, b64Index_b64Char _ h3,
      if_neg (b64Char_ne_pad _ h3), eq_self_iff_true, if_true]
    simp only [List.cons.injEq, eq_self_iff_true, and_true]
    omega
  | case3 a =>
    intro hb
    have ha' : a < 256 := hb a (by simp)
    have h1 : a / 4 < 64 := by omega
    have h2 : (a % 4) * 16 < 64 := by omega
    simp only [uint8ArrayToBase64, base64ToUint8Array,
      b64Index_b64Char _ h1, b64Index_b64Char _ h2, eq_self_iff_true, if_true]
    simp only [List.cons.injEq, eq_self_iff_true, and_true]
    omega
  | case4 => intro _; rfl

theorem hexChar_mem_hexDigits : ∀ n, n < 16 → hexChar n ∈ "0123456789abcdef".toList := by
  decide

/-! ## Claim theorems -/

/-- C1 — the claim says the first snapshot write of a fresh session stores
`version = 0` and that versions strictly increase across successive writes.
The save loop passes `persistenceCount++` (0, 1, 2, …) into
`persistDocument`, but `persistDocument` stores `version || Date.now()` and
`0` is falsy in JS: the first write stores the wall-clock timestamp, the
second stores `1`, so the stored version *decreases* from the first to the
second successful write.  Evaluation of the embedded code at the failing
input. -/
theorem c1_first_snapshot_version_bug :
    (persistDocument (fun _ => []) 1760227200000 (saveLoopVersionArg 0) [] []).version
        = 1760227200000
    ∧ (persistDocument (fun _ => []) 1760227200000 (saveLoopVersionArg 0) [] []).version ≠ 0
    ∧ (persistDocument (fun _ => []) 1760227202000 (saveLoopVersionArg 1) [] []).version = 1
    ∧ (persistDocument (fun _ => []) 1760227202000 (saveLoopVersionArg 1) [] []).version
        < (persistDocument (fun _ => []) 1760227200000 (saveLoopVersionArg 0) [] []).version := by
  refine ⟨rfl, by decide, rfl, by decide⟩

/-- C2 — for every snapshot record written by `persistDocument`, the stored
checksum equals the digest rendering of the bytes recovered by
base64-decoding the record's `update` field; and every checksum character is
a lowercase hexadecimal digit (given that the digest primitive returns
bytes). -/
theorem c2_snapshot_checksum_roundtrip (digest : List Nat → List Nat) (now : Nat)
    (version : Option Nat) (update stateVector : List Nat)
    (hu : ∀ b ∈ update, b < 256) :
    calculateChecksum digest
        (base64ToUint8Array ((persistDocument digest now version update stateVector).update))
      = (persistDocument digest now version update stateVector).checksum
    ∧ ((∀ b ∈ digest update, b < 256) →
        ∀ c ∈ (persistDocument digest now version update stateVector).checksum,
          c ∈ "0123456789abcdef".toList) := by
  constructor
  · show calculateChecksum digest (base64ToUint8Array (uint8ArrayToBase64 update)) = _
    rw [base64_roundtrip update hu]
    rfl
  · intro hd c hc
    have hc' : c ∈ (digest update).flatMap byteToHex := hc
    rw [List.mem_flatMap] at hc'
    obtain ⟨b, hb, hcb⟩ := hc'
    have hb' : b < 256 := hd b hb
    have : c = hexChar (b / 16) ∨ c = hexChar (b % 16) := by
      simpa [byteToHex] using hcb
    rcases this with h | h
    · exact h ▸ hexChar_mem_hexDigits (b / 16) (by omega)
    · exact h ▸ hexChar_mem_hexDigits (b % 16) (by omega)

/-- Witness for C2 at a concrete snapshot. -/
theorem c2_snapshot_checksum_roundtrip_witness :
    calculateChecksum (fun _ => [255, 0])
        (base64ToUint8Array
          ((persistDocument (fun _ => [255, 0]) 5 none [104, 105] [1]).update))
      = (persistDocument (fun _ => [255, 0]) 5 none [104, 105] [1]).checksum
    ∧ ((∀ b ∈ (fun (_ : List Nat) => [255, 0]) [104, 105], b < 256) →
        ∀ c ∈ (persistDocument (fun _ => [255, 0]) 5 none [104, 105] [1]).checksum,
          c ∈ "0123456789abcdef".toList) :=
  c2_snapshot_checksum_roundtrip (fun _ => [255, 0]) 5 none [104, 105] [1] (by decide)

/-- C4 — a flush of the save loop writes nothing when the dirty flag is
unset, and nothing when the current state vector is byte-equal to the last
persisted one; consequently a second tick with an unchanged state vector (no
CRDT updates delivered in between) performs zero snapshot writes. -/
theorem c4_flush_skip (st : PersistLoopState) (sv : List Nat) :
    (st.hasChanges = false → (persistenceFlush st sv).2 = 0)
    ∧ (∀ sv0, st.lastPersistedStateVector = some sv0 → arraysAreEqual sv sv0 = true →
        (persistenceFlush st sv).2 = 0)
    ∧ (persistenceFlush (persistenceFlush st sv).1 sv).2 = 0 := by
  refine ⟨?_, ?_, ?_⟩
  · intro h
    simp [persistenceFlush, h]
  · intro sv0 hl he
    cases hch : st.hasChanges <;> simp [persistenceFlush, hch, hl, he]
  · cases hch : st.hasChanges
    · simp [persistenceFlush, hch]
    · cases hl : st.lastPersistedStateVector with
      | none => simp [persistenceFlush, hch, hl, (arraysAreEqual_iff sv sv).mpr rfl]
      | some sv0 =>
        cases he : arraysAreEqual sv sv0
        · simp [persistenceFlush, hch, hl, he, (arraysAreEqual_iff sv sv).mpr rfl]
        · simp [persistenceFlush, hch, hl, he]

/-- Witness for C4 at concrete loop states. -/
theorem c4_flush_skip_witness :
    (persistenceFlush ⟨false, none, 0⟩ [1, 2]).2 = 0
    ∧ (persistenceFlush ⟨true, some [1, 2], 3⟩ [1, 2]).2 = 0 :=
  ⟨(c4_flush_skip ⟨false, none, 0⟩ [1, 2]).1 rfl,
   (c4_flush_skip ⟨true, some [1, 2], 3⟩ [1, 2]).2.1 [1, 2] rfl (by decide)⟩

/-- C5 — the adapter broadcasts a document update only when its origin
differs from the peer manager, and remote updates are applied with the peer
manager as origin, so applying a remote sync update queues no outgoing
broadcast (no echo). -/
theorem c5_echo_suppression (origin : UpdateOrigin) (pending : List (List Nat))
    (update : List Nat) :
    docUpdateHandler remoteApplyOrigin pending update = pending
    ∧ (origin ≠ UpdateOrigin.peerManager →
        docUpdateHandler origin pending update = pending ++ [update]) := by
  constructor
  · simp [docUpdateHandler, remoteApplyOrigin]
  · intro h
    simp [docUpdateHandler, h]

/-- Witness for C5 at a concrete origin and update. -/
theorem c5_echo_suppression_witness :
    docUpdateHandler remoteApplyOrigin [[9]] [1, 2, 3] = [[9]]
    ∧ (UpdateOrigin.other 0 ≠ UpdateOrigin.peerManager →
        docUpdateHandler (UpdateOrigin.other 0) [[9]] [1, 2, 3] = [[9]] ++ [[1, 2, 3]]) :=
  c5_echo_suppression (UpdateOrigin.other 0) [[9]] [1, 2, 3]

/-- C8 — `compressData` returns its input with `isCompressed = false` when
the input is below the 100-byte threshold or when the gzip output is not
strictly smaller than the input; and without the streaming gzip primitive
both `compressData` and `decompressData` are the identity. -/
theorem c8_compression_identity (gzip gunzip : List Nat → List Nat)
    (useNative : Bool) (data : List Nat) :
    (data.length < COMPRESSION_THRESHOLD →
      compressData gzip useNative data = { compressed := data, isCompressed := false })
    ∧ (¬ (gzip data).length < data.length →
      compressData gzip useNative data = { compressed := data, isCompressed := false })
    ∧ compressData gzip false data = { compressed := data, isCompressed := false }
    ∧ decompressData gunzip false data = data := by
  refine ⟨?_, ?_, ?_, ?_⟩
  · intro h
    cases useNative <;> simp [compressData, h]
  · intro h
    cases useNative <;> simp [compressData, h]
  · simp [compressData]
  · simp [decompressData]

/-- Witness for C8 at concrete inputs. -/
theorem c8_compression_identity_witness :
    (([1, 2, 3] : List Nat).length < COMPRESSION_THRESHOLD →
      compressData (fun _ => [0]) true [1, 2, 3] = { compressed := [1, 2, 3], isCompressed := false })
    ∧ (¬ ((fun (_ : List Nat) => [0]) [1, 2, 3]).length < ([1, 2, 3] : List Nat).length →
      compressData (fun _ => [0]) true [1, 2, 3] = { compressed := [1, 2, 3], isCompressed := false })
    ∧ compressData (fun _ => [0]) false [1, 2, 3] = { compressed := [1, 2, 3], isCompressed := false }
    ∧ decompressData (fun _ => [0]) false [1, 2, 3] = [1, 2, 3] :=
  c8_compression_identity (fun _ => [0]) (fun _ => [0]) true [1, 2, 3]

/-- C9 — `getMemoryStats().connectionCount` counts every tracked peer
connection while `getPeerCount()` counts only the `"connected"` ones, so the
former is always at least the latter and strictly greater as soon as some
tracked connection is not connected. -/
theorem c9_connection_counts (peers : List (String × RTCConnectionState)) :
    getPeerCount peers ≤ getMemoryStatsConnectionCount peers
    ∧ ((∃ p ∈ peers, p.2 ≠ RTCConnectionState.connected) →
        getPeerCount peers < getMemoryStatsConnectionCount peers) := by
  constructor
  · exact List.length_filter_le _ _
  · intro ⟨p, hp, hne⟩
    unfold getPeerCount getMemoryStatsConnectionCount
    rw [List.length_filter_lt_length_iff_exists]
    exact ⟨p, hp, by simpa using hne⟩

/-- Witness for C9 with one connected and one failed connection. -/
theorem c9_connection_counts_witness :
    getPeerCount [("a", RTCConnectionState.connected), ("b", RTCConnectionState.failed)]
      ≤ getMemoryStatsConnectionCount
          [("a", RTCConnectionState.connected), ("b", RTCConnectionState.failed)]
    ∧ ((∃ p ∈ [("a", RTCConnectionState.connected), ("b", RTCConnectionState.failed)],
          p.2 ≠ RTCConnectionState.connected) →
        getPeerCount [("a", RTCConnectionState.connected), ("b", RTCConnectionState.failed)]
          < getMemoryStatsConnectionCount
              [("a", RTCConnectionState.connected), ("b", RTCConnectionState.failed)]) :=
  c9_connection_counts [("a", RTCConnectionState.connected), ("b", RTCConnectionState.failed)]

/-- C3 — discovery never initiates to the peer's own id, and for a pair of
distinct fresh peer ids exactly one side (the lexicographically smaller one)
decides to initiate and send the offer. -/
theorem c3_initiator_uniqueness (a b : String) (lastSeen now : Int)
    (hne : a ≠ b) (hts : lastSeen ≠ 0)
    (hfresh : now - lastSeen < (PEER_PRESENCE_TIMEOUT_MS : Int)) :
    shouldInitiateOnDiscovery a a lastSeen now false = false
    ∧ ((shouldInitiateOnDiscovery a b lastSeen now false = true
          ∧ shouldInitiateOnDiscovery b a lastSeen now false = false)
        ∨ (shouldInitiateOnDiscovery a b lastSeen now false = false
          ∧ shouldInitiateOnDiscovery b a lastSeen now false = true)) := by
  constructor
  · simp [shouldInitiateOnDiscovery]
  · have hba : b ≠ a := fun h => hne h.symm
    rcases lt_trichotomy a b with hlt | heq | hgt
    · left
      constructor
      · simp [shouldInitiateOnDiscovery, hba, hts, hfresh, hlt]
      · simp [shouldInitiateOnDiscovery, hne, hts, hfresh, not_lt_of_lt hlt]
    · exact absurd heq hne
    · right
      constructor
      · simp [shouldInitiateOnDiscovery, hba, hts, hfresh, not_lt_of_lt hgt]
      · simp [shouldInitiateOnDiscovery, hne, hts, hfresh, hgt]

/-- Witness for C3 at the concrete pair from scenario S2. -/
theorem c3_initiator_uniqueness_witness :
    shouldInitiateOnDiscovery "aaaa" "aaaa" 1 2 false = false
    ∧ ((shouldInitiateOnDiscovery "aaaa" "bbbb" 1 2 false = true
          ∧ shouldInitiateOnDiscovery "bbbb" "aaaa" 1 2 false = false)
        ∨ (shouldInitiateOnDiscovery "aaaa" "bbbb" 1 2 false = false
          ∧ shouldInitiateOnDiscovery "bbbb" "aaaa" 1 2 false = true)) :=
  c3_initiator_uniqueness "aaaa" "bbbb" 1 2 (by decide) (by decide) (by decide)

/-- C7 (counterexample) — the claim says that on a memory-check tick with
more than 50 awareness entries, entries belonging to currently connected
peers are retained.  In the `c7CexState` scenario the peer `"p1"` is
currently connected and its awareness entry sits under its Yjs client id
`c7CexClientId = 7`; `performMemoryCleanup` compares the *decimal string* of
the client id against the peer-id strings (`String(clientId)`, `"7" ≠ "p1"`),
so the connected peer's entry is removed. -/
theorem c7_connected_peer_entry_removed :
    ("p1", RTCConnectionState.connected) ∈ c7CexState.peers
    ∧ c7CexClientId ∈ c7CexState.awarenessClients
    ∧ c7CexState.awarenessClients.length > MAX_AWARENESS_STATES
    ∧ c7CexClientId ∉ performMemoryCleanupAwareness c7CexState := by
  refine ⟨by decide, by decide, by decide, ?_⟩
  decide

/-- C7 (amended) — on a `performMemoryCleanup` tick with more than 50
awareness entries, exactly the entries whose client id's decimal string is
not among the connected peer ids (with the local peer id added) and whose
client id differs from the local `ydoc.clientID` are removed; the adapter's
memory-monitor tick removes every entry except the local client id. -/
theorem c7_awareness_cleanup_characterization (st : PeerManagerMemState)
    (h : st.awarenessClients.length > MAX_AWARENESS_STATES) :
    (∀ cid, cid ∈ performMemoryCleanupAwareness st ↔
        cid ∈ st.awarenessClients ∧
          ((connectedPeerIds st).contains (toString cid) = true ∨ cid = st.selfClientID))
    ∧ (∀ cid ∈ adapterMemoryTickAwareness st.awarenessClients st.selfClientID
          MAX_AWARENESS_STATES, cid = st.selfClientID) := by
  constructor
  · intro cid
    simp [performMemoryCleanupAwareness, h, awarenessKeep, List.mem_filter]
  · intro cid hcid
    simp only [adapterMemoryTickAwareness, if_pos h, List.mem_filter, beq_iff_eq] at hcid
    exact hcid.2

/-- Witness for the amended C7 theorem at the concrete scenario state. -/
theorem c7_awareness_cleanup_characterization_witness :
    (c7CexClientId ∈ performMemoryCleanupAwareness c7CexState ↔
        c7CexClientId ∈ c7CexState.awarenessClients ∧
          ((connectedPeerIds c7CexState).contains (toString c7CexClientId) = true
            ∨ c7CexClientId = c7CexState.selfClientID)) :=
  (c7_awareness_cleanup_characterization c7CexState (by decide)).1 c7CexClientId

/-! ### Helper lemmas for the message-buffer invariant (C10) -/

theorem sumSizes_append (l1 l2 : List (Nat × Nat)) :
    sumSizes (l1 ++ l2) = sumSizes l1 + sumSizes l2 := by
  simp [sumSizes]

theorem sumSizes_take_drop (k : Nat) (l : List (Nat × Nat)) :
    sumSizes (l.take k) + sumSizes (l.drop k) = sumSizes l := by
  rw [← sumSizes_append, List.take_append_drop]

theorem dropExpired_counter (l : List (Nat × Nat)) (cutoff : Nat) :
    ∀ c : Int, c = sumSizes l →
      (dropExpired l c cutoff).2 = sumSizes (dropExpired l c cutoff).1 := by
  induction l with
  | nil =>
    intro c hc
    simpa [dropExpired, sumSizes] using hc
  | cons e rest ih =>
    intro c hc
    obtain ⟨t, s⟩ := e
    by_cases ht : t < cutoff
    · simp only [dropExpired, if_pos ht]
      apply ih
      have : sumSizes ((t, s) :: rest) = s + sumSizes rest := by
        simp [sumSizes]
      omega
    · simp only [dropExpired, if_neg ht]
      exact hc

/-- C10 — if the `memoryStats.messageBuffer` byte counter equals the sum of
the sizes held in the buffer, then after any `trackMessage` call it still
does (neither the retention trim nor the count-cap trim introduces drift),
and the buffer holds at most `MAX_MESSAGE_BUFFER_SIZE` (1,000) entries. -/
theorem c10_trackMessage_invariant (st : MessageTrackerState) (now size : Nat)
    (hinv : st.messageBufferBytes = sumSizes st.messageBuffer) :
    (trackMessage st now size).messageBufferBytes
        = sumSizes (trackMessage st now size).messageBuffer
    ∧ (trackMessage st now size).messageBuffer.length ≤ MAX_MESSAGE_BUFFER_SIZE := by
  have hc1 : st.messageBufferBytes + (size : Int)
      = sumSizes (st.messageBuffer ++ [(now, size)]) := by
    rw [sumSizes_append, hinv]
    simp [sumSizes]
  simp only [trackMessage]
  generalize hT : dropExpired (st.messageBuffer ++ [(now, size)])
      (st.messageBufferBytes + (size : Int)) (now - MESSAGE_BUFFER_RETENTION_MS) = tr
  have hdrop := dropExpired_counter (st.messageBuffer ++ [(now, size)])
    (now - MESSAGE_BUFFER_RETENTION_MS) (st.messageBufferBytes + (size : Int)) hc1
  rw [hT] at hdrop
  obtain ⟨buf2, c2⟩ := tr
  simp only [] at hdrop ⊢
  by_cases hlen : buf2.length > MAX_MESSAGE_BUFFER_SIZE
  · simp only [if_pos hlen]
    refine ⟨?_, ?_⟩
    · have hsplit := sumSizes_take_drop (buf2.length - MAX_MESSAGE_BUFFER_SIZE) buf2
      omega
    · simp only [List.length_drop]
      omega
  · simp only [if_neg hlen]
    exact ⟨hdrop, by omega⟩

/-- Witness for C10 from the empty tracker state. -/
theorem c10_trackMessage_invariant_witness :
    (trackMessage ⟨[], 0⟩ 100 7).messageBufferBytes
        = sumSizes (trackMessage ⟨[], 0⟩ 100 7).messageBuffer
    ∧ (trackMessage ⟨[], 0⟩ 100 7).messageBuffer.length ≤ MAX_MESSAGE_BUFFER_SIZE :=
  c10_trackMessage_invariant ⟨[], 0⟩ 100 7 (by decide)

/-! ### Helper lemmas for chunking and reassembly (C6) -/

theorem bufferGet_eq_none_iff (buf : List (Nat × List Nat)) (i : Nat) :
    bufferGet buf i = none ↔ i ∉ buf.map Prod.fst := by
  induction buf with
  | nil => simp [bufferGet]
  | cons e rest ih =>
    obtain ⟨j, d⟩ := e
    by_cases h : i = j <;> simp [bufferGet, h, ih]

theorem bufferGet_mem (buf : List (Nat × List Nat)) (i : Nat) (d : List Nat)
    (hnd : (buf.map Prod.fst).Nodup) (hmem : (i, d) ∈ buf) :
    bufferGet buf i = some d := by
  induction buf with
  | nil => simp at hmem
  | cons e rest ih =>
    obtain ⟨j, d'⟩ := e
    rw [List.map_cons, List.nodup_cons] at hnd
    rcases List.mem_cons.mp hmem with heq | hmem'
    · obtain ⟨h1, h2⟩ := Prod.mk.injEq i d j d' ▸ heq
      subst h1; subst h2
      simp [bufferGet]
    · have hij : i ≠ j := by
        intro h
        subst h
        exact hnd.1 (List.mem_map.mpr ⟨(i, d), hmem', rfl⟩)
      simp [bufferGet, hij, ih hnd.2 hmem']

theorem keys_coverage (keys : List Nat) (n : Nat) (hnd : keys.Nodup)
    (hlt : ∀ k ∈ keys, k < n) (hlen : keys.length = n) : ∀ i, i < n → i ∈ keys := by
  intro i hi
  have h1 : keys.toFinset ⊆ Finset.range n := by
    intro x hx
    rw [List.mem_toFinset] at hx
    exact Finset.mem_range.mpr (hlt x hx)
  have h2 : keys.toFinset = Finset.range n := by
    apply Finset.eq_of_subset_of_card_le h1
    rw [Finset.card_range, List.toFinset_card_of_nodup hnd, hlen]
  have : i ∈ keys.toFinset := h2 ▸ Finset.mem_range.mpr hi
  exact List.mem_toFinset.mp this

theorem flatMap_congr_aux (l : List Nat) (f g : Nat → List Nat)
    (h : ∀ a ∈ l, f a = g a) : l.flatMap f = l.flatMap g := by
  induction l with
  | nil => rfl
  | cons x xs ih =>
    simp only [List.flatMap_cons]
    rw [h x (by simp), ih (fun a ha => h a (by simp [ha]))]

theorem flatMap_slices (B : Nat) :
    ∀ (n : Nat) (l : List Nat),
      (List.range n).flatMap (fun i => (l.drop (i * B)).take B) = l.take (n * B) := by
  intro n
  induction n with
  | zero => intro l; simp
  | succ n ih =>
    intro l
    rw [List.range_succ, List.flatMap_append, ih]
    simp only [List.flatMap_cons, List.flatMap_nil, List.append_nil]
    conv_rhs => rw [Nat.succ_mul, List.take_add]

theorem ceil_mul_ge (B P : Nat) (hB : 0 < B) : P ≤ ((P + B - 1) / B) * B := by
  have h1 := Nat.div_add_mod (P + B - 1) B
  have h2 : (P + B - 1) % B < B := Nat.mod_lt _ hB
  rw [Nat.mul_comm]
  generalize hr : (P + B - 1) % B = r at h1 h2
  generalize hm : B * ((P + B - 1) / B) = m at h1 ⊢
  omega

/-- Processing a full set of distinct chunks for one message: as long as
chunks remain, the buffer only grows; the chunk completing the set triggers
reassembly in chunk-index order and clears the buffer. -/
theorem reassembly_go (n : Nat) (data : Nat → List Nat) :
    ∀ (ms : List ChunkEnvelope) (buf : List (Nat × List Nat)) (applied : List (List Nat)),
      ms ≠ [] →
      buf.length + ms.length = n →
      ((buf.map Prod.fst) ++ (ms.map ChunkEnvelope.chunk)).Nodup →
      (∀ p ∈ buf, p.1 < n ∧ p.2 = data p.1) →
      (∀ m ∈ ms, m.totalChunks = n ∧ m.chunk < n ∧ m.update = data m.chunk) →
      (ms.map WireMessage.syncChunk).foldl handleDataChannelMessage ⟨buf, applied⟩
        = ⟨[], applied ++ [(List.range n).flatMap data]⟩ := by
  intro ms
  induction ms with
  | nil => intro buf applied hne; exact absurd rfl hne
  | cons m ms' ih =>
    intro buf applied _ hlen hnd hbuf hms
    have hndparts := List.nodup_append.mp hnd
    have hnotin : m.chunk ∉ buf.map Prod.fst := by
      intro hmem
      exact hndparts.2.2 hmem (by simp)
    have hget : bufferGet buf m.chunk = none := (bufferGet_eq_none_iff buf m.chunk).mpr hnotin
    have htot : m.totalChunks = n := (hms m (by simp)).1
    have hbuf' : ∀ p ∈ buf ++ [(m.chunk, m.update)], p.1 < n ∧ p.2 = data p.1 := by
      intro p hp
      rcases List.mem_append.mp hp with hp' | hp'
      · exact hbuf p hp'
      · have : p = (m.chunk, m.update) := by simpa using hp'
        subst this
        exact ⟨(hms m (by simp)).2.1, (hms m (by simp)).2.2⟩
    simp only [List.map_cons, List.foldl_cons]
    by_cases hms' : ms' = []
    · subst hms'
      simp only [List.length_cons, List.length_nil] at hlen
      have hfull : (buf ++ [(m.chunk, m.update)]).length = m.totalChunks := by
        rw [htot]
        simp
        omega
      have hcov : ∀ i, i < n → bufferGet (buf ++ [(m.chunk, m.update)]) i = some (data i) := by
        intro i hi
        have hkeys : ((buf ++ [(m.chunk, m.update)]).map Prod.fst).Nodup := by
          simpa using hnd
        have hklt : ∀ k ∈ (buf ++ [(m.chunk, m.update)]).map Prod.fst, k < n := by
          intro k hk
          obtain ⟨p, hp, hpk⟩ := List.mem_map.mp hk
          exact hpk ▸ (hbuf' p hp).1
        have hklen : ((buf ++ [(m.chunk, m.update)]).map Prod.fst).length = n := by
          simp
          omega
        have hmemk := keys_coverage _ n hkeys hklt hklen i hi
        obtain ⟨p, hp, hpk⟩ := List.mem_map.mp hmemk
        have hval := (hbuf' p hp).2
        have : bufferGet (buf ++ [(m.chunk, m.update)]) p.1 = some p.2 :=
          bufferGet_mem _ p.1 p.2 hkeys (by cases p; exact hp)
        rw [hpk] at this
        rw [this, hval, hpk]
      simp only [List.map_nil, List.foldl_nil]
      have hb : (bufferGet buf m.chunk).isSome = false := by rw [hget]; rfl
      simp only [handleDataChannelMessage, handleChunkedMessage, hb,
        Bool.false_eq_true, if_false]
      rw [if_pos hfull, htot]
      have hflat : (List.range n).flatMap
          (fun i => (bufferGet (buf ++ [(m.chunk, m.update)]) i).getD [])
          = (List.range n).flatMap data := by
        apply flatMap_congr_aux
        intro i hi
        rw [hcov i (List.mem_range.mp hi)]
        rfl
      rw [hflat]
    · have hlen' : 1 ≤ ms'.length := by
        cases ms' with
        | nil => exact absurd rfl hms'
        | cons _ _ => simp
      have hnfull : ¬ (buf ++ [(m.chunk, m.update)]).length = m.totalChunks := by
        rw [htot]
        simp only [List.length_append, List.length_cons] at hlen ⊢
        simp
        omega
      have hstep : handleDataChannelMessage ⟨buf, applied⟩ (WireMessage.syncChunk m)
          = ⟨buf ++ [(m.chunk, m.update)], applied⟩ := by
        have hb : (bufferGet buf m.chunk).isSome = false := by rw [hget]; rfl
        simp only [handleDataChannelMessage, handleChunkedMessage, hb,
          Bool.false_eq_true, if_false]
        rw [if_neg hnfull]
      rw [hstep]
      apply ih
      · exact hms'
      · simp only [List.length_append, List.length_singleton] at hlen ⊢
        simp only [List.length_cons] at hlen
        omega
      · have : (buf ++ [(m.chunk, m.update)]).map Prod.fst ++ ms'.map ChunkEnvelope.chunk
            = buf.map Prod.fst ++ (m.chunk :: ms'.map ChunkEnvelope.chunk) := by
          simp
        rw [this]
        simpa using hnd
      · exact hbuf'
      · intro m' hm'
        exact hms m' (by simp [hm'])

/-- C6 — an outbound payload larger than the chunk budget `B` is split into
exactly `ceil(P/B)` sync-chunk envelopes sharing one `messageId` and carrying
`(chunk index, totalChunks)`; delivering those chunks to the receiver in any
permutation applies the same update as delivering the payload in a single
`sync` envelope. -/
theorem c6_chunked_reassembly (B : Nat) (selfId : String) (now : Nat) (l : List Nat)
    (hB : 3 ≤ B) (hP : B < l.length) :
    broadcastUpdate B selfId now l
        = (List.range ((l.length + B - 1) / B)).map (fun i =>
            WireMessage.syncChunk (syncChunkEnvelope B selfId now l i))
    ∧ (broadcastUpdate B selfId now l).length = (l.length + B - 1) / B
    ∧ ∀ ms : List ChunkEnvelope,
        ms.Perm ((List.range ((l.length + B - 1) / B)).map
          (fun i => syncChunkEnvelope B selfId now l i)) →
        processMessages emptyReassembly (ms.map WireMessage.syncChunk)
          = processMessages emptyReassembly [WireMessage.sync l] := by
  have hshape : broadcastUpdate B selfId now l
      = (List.range ((l.length + B - 1) / B)).map (fun i =>
          WireMessage.syncChunk (syncChunkEnvelope B selfId now l i)) := by
    simp only [broadcastUpdate, syncChunkEnvelope]
    rw [if_neg, if_neg]
    · omega
    · simp only [Bool.or_eq_true, decide_eq_true_eq, not_or]
      omega
  refine ⟨hshape, by rw [hshape]; simp, ?_⟩
  intro ms hperm
  have hBpos : 0 < B := by omega
  have hflat : (List.range ((l.length + B - 1) / B)).flatMap
      (fun i => (l.drop (i * B)).take B) = l := by
    rw [flatMap_slices]
    exact List.take_of_length_le (ceil_mul_ge B l.length hBpos)
  have hn2 : 2 ≤ (l.length + B - 1) / B :=
    (Nat.le_div_iff_mul_le hBpos).mpr (by omega)
  have hlenms : ms.length = (l.length + B - 1) / B := by
    rw [hperm.length_eq]
    simp
  have hne : ms ≠ [] := by
    intro h
    rw [h] at hlenms
    simp at hlenms
    omega
  have hchunksperm : (ms.map ChunkEnvelope.chunk).Perm
      (List.range ((l.length + B - 1) / B)) := by
    have h := hperm.map ChunkEnvelope.chunk
    rw [List.map_map,
      show (ChunkEnvelope.chunk ∘ fun i => syncChunkEnvelope B selfId now l i) = id from rfl,
      List.map_id] at h
    exact h
  have hnodup : (ms.map ChunkEnvelope.chunk).Nodup :=
    hchunksperm.nodup_iff.mpr (List.nodup_range _)
  have hmsmem : ∀ m ∈ ms, m.totalChunks = (l.length + B - 1) / B
      ∧ m.chunk < (l.length + B - 1) / B
      ∧ m.update = (l.drop (m.chunk * B)).take B := by
    intro m hm
    have hm' := hperm.mem_iff.mp hm
    obtain ⟨i, hi, rfl⟩ := List.mem_map.mp hm'
    exact ⟨rfl, List.mem_range.mp hi, rfl⟩
  have hgo := reassembly_go ((l.length + B - 1) / B)
    (fun i => (l.drop (i * B)).take B) ms [] [] hne (by simpa using hlenms)
    (by simpa using hnodup) (by simp) hmsmem
  show (ms.map WireMessage.syncChunk).foldl handleDataChannelMessage ⟨[], []⟩
      = processMessages emptyReassembly [WireMessage.sync l]
  rw [hgo, hflat]
  rfl

/-- Witness for C6: a 4-byte payload against a 3-byte budget splits into two
chunks; delivering them in reversed order applies the same update as a single
`sync` envelope. -/
theorem c6_chunked_reassembly_witness :
    broadcastUpdate 3 "a" 0 [1, 2, 3, 4]
        = (List.range ((([1, 2, 3, 4] : List Nat).length + 3 - 1) / 3)).map (fun i =>
            WireMessage.syncChunk (syncChunkEnvelope 3 "a" 0 [1, 2, 3, 4] i))
    ∧ processMessages emptyReassembly
        ([syncChunkEnvelope 3 "a" 0 [1, 2, 3, 4] 1,
          syncChunkEnvelope 3 "a" 0 [1, 2, 3, 4] 0].map WireMessage.syncChunk)
      = processMessages emptyReassembly [WireMessage.sync [1, 2, 3, 4]] := by
  have h := c6_chunked_reassembly 3 "a" 0 [1, 2, 3, 4] (by decide) (by decide)
  refine ⟨h.1, ?_⟩
  apply h.2.2
  have hl : (List.range ((([1, 2, 3, 4] : List Nat).length + 3 - 1) / 3)).map
      (fun i => syncChunkEnvelope 3 "a" 0 [1, 2, 3, 4] i)
      = [syncChunkEnvelope 3 "a" 0 [1, 2, 3, 4] 0,
         syncChunkEnvelope 3 "a" 0 [1, 2, 3, 4] 1] := rfl
  rw [hl]
  exact List.Perm.swap _ _ _
